import Mathlib

/-
Shallow embedding of the flow-graph analyzer of the Typebot-Downloader
repository: the flow tracer (get_ordered_variables), the constraint
extractor (generate_constraints) and the question associator
(extract_questions) of src/1-BotLogicExtractor.py, together with the
second copy of the flow tracer found in src/2-ExtractBotData.py.

The raw JSON document is modelled by structures whose optional JSON
fields become Option values; Python dict construction from lists (last
write wins, keys in first-insertion order) is modelled by lookupLast,
firstKeys, dictValues and dictItems below.
-/

/-- An entry of bot.variables: the source reads v['id'] and v['name']
directly, so both fields are required. -/
structure Variable where
  id : String
  name : String
  deriving DecidableEq

/-- The `from` endpoint of an edge (edge.get('from', {})); every field is
read with .get and may be absent. -/
structure EdgeFrom where
  eventId : Option String := none
  itemId : Option String := none
  blockId : Option String := none
  groupId : Option String := none
  deriving DecidableEq

/-- The `to` endpoint of an edge (edge.get('to', {})). -/
structure EdgeTo where
  groupId : Option String := none
  blockId : Option String := none
  deriving DecidableEq

/-- An edge of bot.edges; `from`/`to` are Lean keywords, embedded as
fromE/toE. The id is read with edge.get('id'). -/
structure Edge where
  id : Option String := none
  fromE : EdgeFrom := {}
  toE : EdgeTo := {}
  deriving DecidableEq

/-- One comparison of a condition item (item.content.comparisons[i]);
all fields are read with .get. -/
structure Comparison where
  variableId : Option String := none
  comparisonOperator : Option String := none
  value : Option String := none
  deriving DecidableEq

/-- A sub-branch item of a condition block.  comparisons models
item.get('content', {}).get('comparisons', []). -/
structure Item where
  id : Option String := none
  comparisons : List Comparison := []
  outgoingEdgeId : Option String := none
  deriving DecidableEq

/-- block.get('options', {}): variableId is the field the block writes,
groupId/blockId are the jump target of Jump blocks. -/
structure BlockOptions where
  variableId : Option String := none
  groupId : Option String := none
  blockId : Option String := none
  deriving DecidableEq

/-- One line of rich text: element.get('children', []), each child read
with c.get('text', ''). -/
structure RichElement where
  children : List (Option String) := []
  deriving DecidableEq

/-- block.get('content', {}), of which only richText is read. -/
structure BlockContent where
  richText : List RichElement := []
  deriving DecidableEq

/-- A block of a group.  b['id'] is read directly (required); type is
read with .get. -/
structure Block where
  id : String
  type : Option String := none
  options : BlockOptions := {}
  items : List Item := []
  content : BlockContent := {}
  deriving DecidableEq

/-- A group of bot.groups: g['id'] read directly, blocks via .get. -/
structure BotGroup where
  id : String
  blocks : List Block := []
  deriving DecidableEq

/-- An entry of bot.events; both fields read with .get. -/
structure Event where
  type : Option String := none
  id : Option String := none
  deriving DecidableEq

/-- The typebot document (bot_data['typebot']).  All collections are read
with .get and default to empty; startGroupId with .get (absent possible). -/
structure Typebot where
  groups : List BotGroup := []
  edges : List Edge := []
  events : List Event := []
  variablesL : List Variable := []
  startGroupId : Option String := none
  deriving DecidableEq

/-- A derived constraint record as built by generate_constraints. -/
structure Constraint where
  condition_column : String
  condition_value : String
  affected_columns : List String
  deriving DecidableEq

/-- Python truthiness of an optional string value: None and '' are falsy,
any other string truthy. -/
def truthy : Option String → Bool
  | some s => s != ""
  | none => false

/-- Lookup in a Python dict built by inserting the pairs in list order:
the last write for a key wins. -/
def lookupLast {α : Type} (pairs : List (String × α)) (k : String) : Option α :=
  pairs.foldl (fun acc p => if p.1 = k then some p.2 else acc) none

/-- Keys of a Python dict built from the list, in first-insertion order
(first-occurrence deduplication, structurally recursive so that it
evaluates by kernel reduction). -/
def firstKeys : List String → List String
  | [] => []
  | k :: rest => k :: (firstKeys rest).filter (fun x => x ≠ k)

/-- dict.values() of the dict built from the pairs: first-insertion key
order, last-written values. -/
def dictValues (pairs : List (String × String)) : List String :=
  (firstKeys (pairs.map Prod.fst)).filterMap (lookupLast pairs)

/-- dict.items() of the dict built from the pairs. -/
def dictItems {α : Type} (pairs : List (String × α)) : List (String × α) :=
  (firstKeys (pairs.map Prod.fst)).filterMap
    (fun k => (lookupLast pairs k).map (fun v => (k, v)))

/-- Python str.strip(): drop whitespace from both ends. -/
def pyStrip (s : String) : String :=
  ⟨((s.data.dropWhile Char.isWhitespace).reverse.dropWhile Char.isWhitespace).reverse⟩

/-- Python sep.join(parts). -/
def pyJoin (sep : String) : List String → String
  | [] => ""
  | s :: rest => rest.foldl (fun acc x => acc ++ sep ++ x) s

/-- Lower-cased character sequence of a string (models s.lower()). -/
def lowerChars (s : String) : List Char := s.data.map Char.toLower

/-- Does the first character list occur at the head of the second? -/
def leadMatch : List Char → List Char → Bool
  | [], _ => true
  | _ :: _, [] => false
  | a :: as, b :: bs => a = b && leadMatch as bs

/-- Substring occurrence on character lists (models Python `sub in s`). -/
def containsSub (sub : List Char) : List Char → Bool
  | [] => sub.isEmpty
  | c :: cs => leadMatch sub (c :: cs) || containsSub sub cs

/-- Models `'input' in t.lower()` from the constraint extractor. -/
def hasInputTag (t : String) : Bool := containsSub "input".data (lowerChars t)

/-- The variables dict {v['id']: v['name'] for v in bot.get('variables', [])}
as its insertion list. -/
def varPairsOf (bot : Typebot) : List (String × String) :=
  bot.variablesL.map (fun v => (v.id, v.name))

/-- The groups dict {g['id']: g for g in bot.get('groups', [])} as its
insertion list. -/
def groupPairsOf (bot : Typebot) : List (String × BotGroup) :=
  bot.groups.map (fun g => (g.id, g))

/-- Match condition of the get_targets helper (src/1-BotLogicExtractor.py
lines 84-96 and src/2-ExtractBotData.py lines 59-67): the if/elif chain
over (event_id, item_id, block_id, group_id); each branch appends the same
edge['to'], so the chain is factored into one boolean. -/
def edgeMatch (block_id group_id item_id event_id : Option String) (edge : Edge) : Bool :=
  let f := edge.fromE
  if truthy event_id && f.eventId == event_id then true
  else if truthy item_id && f.itemId == item_id then true
  else if truthy block_id && f.blockId == block_id && !truthy f.itemId then true
  else if truthy group_id && f.groupId == group_id then true
  else false

/-- get_targets of both tracers: collect edge['to'] of every edge matched
by the if/elif chain, in edge order. -/
def get_targets (edges : List Edge) (block_id group_id item_id event_id : Option String) :
    List EdgeTo :=
  edges.foldl
    (fun ts edge => if edgeMatch block_id group_id item_id event_id edge then ts ++ [edge.toE] else ts)
    []

/-- Targets of edges leaving start-type events (the first entry-point
option of both tracers). -/
def startEventTargets (bot : Typebot) : List EdgeTo :=
  bot.events.foldl
    (fun ts ev =>
      if ev.type == some "start" then ts ++ get_targets bot.edges none none none ev.id else ts)
    []

/-- Entry points of the tracer in src/1-BotLogicExtractor.py (lines
98-108): start events, else a truthy startGroupId, else the first key of
the groups dict. -/
def startTargets1 (bot : Typebot) : List EdgeTo :=
  let s := startEventTargets bot
  if s = [] then
    if truthy bot.startGroupId then [⟨bot.startGroupId, none⟩]
    else
      match firstKeys (bot.groups.map BotGroup.id) with
      | [] => []
      | k :: _ => [⟨some k, none⟩]
  else s

/-- Entry points of the tracer in src/2-ExtractBotData.py (lines 69-75):
start events, else a truthy startGroupId; there is no first-group
fallback in this copy. -/
def startTargets2 (bot : Typebot) : List EdgeTo :=
  let s := startEventTargets bot
  if s = [] then
    if truthy bot.startGroupId then [⟨bot.startGroupId, none⟩] else []
  else s

/-- Mutable state of the trace_flow closure: the ordered_variables list
and the visited_groups set (modelled as a list used for membership). -/
structure TraceState where
  ordered : List String
  visited : List String
  deriving DecidableEq

/-- Variable capture step of trace_flow: if the block carries a truthy
options.variableId that is a key of the variables dict, append its name
unless already present. -/
def captureVar (variablesD : List (String × String)) (st : TraceState) (block : Block) :
    TraceState :=
  match block.options.variableId with
  | some vid =>
    if vid ≠ "" ∧ vid ∈ variablesD.map Prod.fst then
      match lookupLast variablesD vid with
      | some name =>
        if name ∈ st.ordered then st else ⟨st.ordered ++ [name], st.visited⟩
      | none => st
    else st
  | none => st

/-- Follow one edge target: `tg = target.get('groupId'); tb =
target.get('blockId'); if tg: trace_flow(tg, tb)`. -/
def followTarget (tf : String → Option String → TraceState → TraceState)
    (st : TraceState) (t : EdgeTo) : TraceState :=
  if truthy t.groupId then tf (t.groupId.getD "") t.blockId st else st

/-- Follow the edges leaving one item of a block (inclusive discovery). -/
def itemsStep (bot : Typebot) (tf : String → Option String → TraceState → TraceState)
    (s : TraceState) (item : Item) : TraceState :=
  (get_targets bot.edges none none item.id none).foldl (followTarget tf) s

/-- Special case for Jump blocks: follow the explicit target named in the
block's options when the target group id is truthy. -/
def jumpStep (bot : Typebot) (tf : String → Option String → TraceState → TraceState)
    (s : TraceState) (block : Block) : TraceState :=
  if block.type == some "Jump" then
    if truthy block.options.groupId then
      tf (block.options.groupId.getD "") block.options.blockId s
    else s
  else s

/-- Per-block body of trace_flow: capture the variable, follow edges from
the block's items, follow edges from the block itself, then the Jump
special case, in that order. -/
def stepBlock (bot : Typebot) (tf : String → Option String → TraceState → TraceState)
    (st : TraceState) (block : Block) : TraceState :=
  jumpStep bot tf
    ((get_targets bot.edges (some block.id) none none none).foldl (followTarget tf)
      (block.items.foldl (itemsStep bot tf) (captureVar (varPairsOf bot) st block)))
    block

/-- trace_flow of both tracers, with explicit recursion fuel: a visited
group id returns immediately, otherwise the id is marked visited, the
group looked up, and the blocks from the start index on are processed.
The Python recursion is unbounded; fuel adequacy is proved below. -/
def traceFlow (bot : Typebot) : Nat → String → Option String → TraceState → TraceState
  | 0, _, _, st => st
  | fuel + 1, gid, startBlockId, st =>
    if gid ∈ st.visited then st
    else
      let st1 : TraceState := ⟨st.ordered, gid :: st.visited⟩
      match lookupLast (groupPairsOf bot) gid with
      | none => st1
      | some group =>
        let blocks := group.blocks
        let startIdx : Nat :=
          if truthy startBlockId then
            (blocks.findIdx? (fun b => b.id = startBlockId.getD "")).getD 0
          else 0
        (blocks.drop startIdx).foldl
          (stepBlock bot (fun g sb s => traceFlow bot fuel g sb s)) st1

/-- The start-target loop of get_ordered_variables, from the empty state. -/
def runTrace (bot : Typebot) (fuel : Nat) (targets : List EdgeTo) : TraceState :=
  targets.foldl (followTarget (fun g sb s => traceFlow bot fuel g sb s)) ⟨[], []⟩

/-- Distinct group ids, in groups-dict key order. -/
def groupKeys (bot : Typebot) : List String := firstKeys (bot.groups.map BotGroup.id)

/-- The fallback pass of get_ordered_variables: append every dict value
not yet present, in dict-value order. -/
def appendMissing (acc : List String) (l : List String) : List String :=
  l.foldl (fun a n => if n ∈ a then a else a ++ [n]) acc

/-- get_ordered_variables with explicit fuel and entry points: trace from
each entry point and then append the missing variable names. -/
def get_ordered_variablesFuel (bot : Typebot) (fuel : Nat) (targets : List EdgeTo) :
    List String :=
  appendMissing (runTrace bot fuel targets).ordered (dictValues (varPairsOf bot))

/-- get_ordered_variables of src/1-BotLogicExtractor.py (lines 69-177). -/
def get_ordered_variables1 (bot : Typebot) : List String :=
  get_ordered_variablesFuel bot ((groupKeys bot).length + 1) (startTargets1 bot)

/-- get_ordered_variables of src/2-ExtractBotData.py (lines 49-124). -/
def get_ordered_variables2 (bot : Typebot) : List String :=
  get_ordered_variablesFuel bot ((groupKeys bot).length + 1) (startTargets2 bot)

/-- The all_blocks dict of generate_constraints as its insertion list:
groups in order, blocks in order, keyed by block id. -/
def allBlockPairsOf (bot : Typebot) : List (String × Block) :=
  bot.groups.foldl (fun acc g => acc ++ g.blocks.map (fun b => (b.id, b))) []

/-- The block_to_group dict of generate_constraints as its insertion list. -/
def blockGroupPairsOf (bot : Typebot) : List (String × String) :=
  bot.groups.foldl (fun acc g => acc ++ g.blocks.map (fun b => (b.id, g.id))) []

/-- The group_block_orders dict of generate_constraints as its insertion
list: group id to the ordered block ids of that group. -/
def orderPairsOf (bot : Typebot) : List (String × List String) :=
  bot.groups.map (fun g => (g.id, g.blocks.map Block.id))

/-- The condition-description formatting of generate_constraints in
src/1-BotLogicExtractor.py (lines 287-295): the default rendering is
overridden for four known operators. -/
def condDesc (operator value : String) : String :=
  if operator = "Equal to" then value
  else if operator = "Contains" then "contém " ++ value
  else if operator = "Does not contain" then "não contém " ++ value
  else if operator = "Not equal" then "diferente de " ++ value
  else operator ++ " " ++ value

/-- Skip-window computation of generate_constraints (lines 250-281): on an
inter-group target the remainder of the block order after the condition
block, on a same-group block target the slice strictly between the two
indices, otherwise nothing.  A ValueError of list.index (condition block
id absent from the order) is caught and yields no window. -/
def skippedBlockIds (ord : List String) (bid : String) (toGroupId toBlockId : Option String)
    (fromGroupId : String) : List String :=
  if truthy toGroupId ∧ toGroupId.getD "" ≠ fromGroupId then
    if bid ∈ ord then ord.drop (ord.findIdx (fun x => x = bid) + 1) else []
  else if truthy toBlockId ∧ toBlockId.getD "" ∈ ord then
    if bid ∈ ord then
      (ord.take (ord.findIdx (fun x => x = toBlockId.getD ""))).drop
        (ord.findIdx (fun x => x = bid) + 1)
    else []
  else []

/-- The skip window of one condition item: resolve the owning group
(block_to_group.get, truthy check) and its block order
(group_block_orders.get with default []), then compute the window. -/
def itemSkippedIds (blockGroupL : List (String × String)) (ordersL : List (String × List String))
    (bid : String) (toGroupId toBlockId : Option String) : List String :=
  match lookupLast blockGroupL bid with
  | some fg =>
    if fg ≠ "" then skippedBlockIds ((lookupLast ordersL fg).getD []) bid toGroupId toBlockId fg
    else []
  | none => []

/-- Collect options.variableId of the input-type blocks of the window
(generate_constraints lines 255-262 and 272-279): a block found in
all_blocks whose type contains 'input' (case-insensitive) contributes its
truthy variableId, in window order. -/
def collectSkippedVars (allBlocksL : List (String × Block)) (skippedIds : List String) :
    List String :=
  skippedIds.foldl
    (fun acc sbid =>
      match lookupLast allBlocksL sbid with
      | some sb =>
        if hasInputTag (sb.type.getD "") then
          match sb.options.variableId with
          | some vid => if vid ≠ "" then acc ++ [vid] else acc
          | none => acc
        else acc
      | none => acc)
    []

/-- Resolution of collected variable ids into affected column names
(line 283): [variables[v] for v in skipped_var_ids if v in variables]. -/
def resolveAffected (variablesD : List (String × String)) (ids : List String) : List String :=
  ids.filterMap
    (fun vid => if vid ∈ variablesD.map Prod.fst then lookupLast variablesD vid else none)

/-- Processing of one item of a condition block (generate_constraints
lines 211-302): read the first comparison only, require a truthy resolved
condition variable name, resolve the outgoing edge by id, compute the skip
window and the affected columns, and emit a constraint only when the
affected-columns list is non-empty. -/
def processItem (edges : List Edge) (variablesD : List (String × String))
    (allBlocksL : List (String × Block)) (blockGroupL : List (String × String))
    (ordersL : List (String × List String)) (bid : String) (item : Item) : Option Constraint :=
  match item.comparisons with
  | [] => none
  | comparison :: _ =>
    let condVarName : Option String :=
      match comparison.variableId with
      | some cvid => lookupLast variablesD cvid
      | none => none
    let operator := comparison.comparisonOperator.getD ""
    let value := comparison.value.getD ""
    if truthy condVarName then
      match edges.find? (fun e => e.id == item.outgoingEdgeId) with
      | some targetEdge =>
        let skippedVarIds :=
          collectSkippedVars allBlocksL
            (itemSkippedIds blockGroupL ordersL bid targetEdge.toE.groupId targetEdge.toE.blockId)
        let affected := resolveAffected variablesD skippedVarIds
        if affected ≠ [] then
          some ⟨condVarName.getD "", condDesc operator value, affected⟩
        else none
      | none => none
    else none

/-- generate_constraints of src/1-BotLogicExtractor.py (lines 179-305):
iterate the all_blocks dict, and for each Condition block process its
items in order, appending each emitted constraint.  The skip-window logic
is identical in src/2-ExtractBotData.py (lines 126-199). -/
def generate_constraints (bot : Typebot) : List Constraint :=
  let variablesD := varPairsOf bot
  let allBlocksL := allBlockPairsOf bot
  let blockGroupL := blockGroupPairsOf bot
  let ordersL := orderPairsOf bot
  (dictItems allBlocksL).foldl
    (fun cs p =>
      if p.2.type == some "Condition" then
        p.2.items.foldl
          (fun cs2 item =>
            match processItem bot.edges variablesD allBlocksL blockGroupL ordersL p.1 item with
            | some c => cs2 ++ [c]
            | none => cs2)
          cs
      else cs)
    []

/-- The condition items of the document, in extraction order: one pair
(owning block id, item) per item of each Condition block of the
all_blocks dict. -/
def conditionItems (bot : Typebot) : List (String × Item) :=
  (dictItems (allBlockPairsOf bot)).foldl
    (fun acc p =>
      if p.2.type == some "Condition" then acc ++ p.2.items.map (fun it => (p.1, it)) else acc)
    []

/-- The explicit input block types recognised by extract_questions in
src/1-BotLogicExtractor.py (lines 501-503). -/
def inputTypes : List String :=
  ["text input", "number input", "email input", "url input", "date input",
   "phone number input", "choice input", "rating input", "file input", "payment input"]

/-- The non-empty stripped lines of a text block (extract_questions lines
487-493): per rich-text element, the concatenation of its children's
text fields, kept stripped when non-empty. -/
def textLines (block : Block) : List String :=
  block.content.richText.filterMap
    (fun element =>
      let lineText := pyJoin "" (element.children.map (fun c => c.getD ""))
      if pyStrip lineText ≠ "" then some (pyStrip lineText) else none)

/-- One step of the per-group scan of extract_questions (lines 482-515),
on the state (questions map as insertion list, pending text): a text
block with at least one non-empty line overwrites the pending text; an
input-type block with truthy variableId resolving to a truthy name
records the pending text when non-empty and clears the slot. -/
def extractQuestionsBlock (variablesD : List (String × String))
    (st : List (String × String) × String) (block : Block) :
    List (String × String) × String :=
  if block.type == some "text" then
    let lines := textLines block
    if lines ≠ [] then (st.1, pyJoin "\n" lines) else st
  else if (match block.type with | some t => decide (t ∈ inputTypes) | none => false) then
    match block.options.variableId with
    | some vid =>
      if vid ≠ "" then
        match lookupLast variablesD vid with
        | some name =>
          if name ≠ "" then
            if st.2 ≠ "" then (st.1 ++ [(name, st.2)], "") else st
          else st
        | none => st
      else st
    | none => st
  else st

/-- extract_questions of src/1-BotLogicExtractor.py (lines 464-518): scan
each group's blocks in order with the pending-text slot reset per group;
the questions map persists across groups. -/
def extract_questions (bot : Typebot) : List (String × String) :=
  bot.groups.foldl
    (fun qmap g => (g.blocks.foldl (extractQuestionsBlock (varPairsOf bot)) (qmap, "")).1)
    []

/-- The names appended by appendMissing: first occurrences of the names
of the list that are absent from the accumulator. -/
def dedupFirstNotIn : List String → List String → List String
  | [], _ => []
  | n :: t, acc => if n ∈ acc then dedupFirstNotIn t acc else n :: dedupFirstNotIn t (acc ++ [n])

/-- Claim-side description of the contribution of one skip-window block
id to affected_columns: the block must be found in all_blocks, carry an
input-substring type and a truthy variableId that is a key of the
variables dict; it then contributes the resolved variable name. -/
def windowContribution (allBlocksL : List (String × Block))
    (variablesD : List (String × String)) (sbid : String) : Option String :=
  match lookupLast allBlocksL sbid with
  | some sb =>
    if hasInputTag (sb.type.getD "") ∧ truthy sb.options.variableId
        ∧ sb.options.variableId.getD "" ∈ variablesD.map Prod.fst then
      lookupLast variablesD (sb.options.variableId.getD "")
    else none
  | none => none

/-- Example document with no start event and no startGroupId, whose only
group collects its variables in the opposite of declaration order. -/
def exDivergenceBot : Typebot :=
  ⟨[⟨"g1", [⟨"b1", some "text input", ⟨some "v2", none, none⟩, [], ⟨[]⟩⟩,
            ⟨"b2", some "text input", ⟨some "v1", none, none⟩, [], ⟨[]⟩⟩]⟩],
   [], [], [⟨"v1", "A"⟩, ⟨"v2", "B"⟩], none⟩

/-- The same document with an explicit startGroupId. -/
def exStartBot : Typebot :=
  ⟨[⟨"g1", [⟨"b1", some "text input", ⟨some "v2", none, none⟩, [], ⟨[]⟩⟩,
            ⟨"b2", some "text input", ⟨some "v1", none, none⟩, [], ⟨[]⟩⟩]⟩],
   [], [], [⟨"v1", "A"⟩, ⟨"v2", "B"⟩], some "g1"⟩

/-- Example document whose single group ends in a Jump back to itself. -/
def exCyclicBot : Typebot :=
  ⟨[⟨"g1", [⟨"b1", some "text input", ⟨some "vA", none, none⟩, [], ⟨[]⟩⟩,
            ⟨"b2", some "Jump", ⟨none, some "g1", none⟩, [], ⟨[]⟩⟩]⟩],
   [⟨some "ed1", ⟨some "E", none, none, none⟩, ⟨some "g1", none⟩⟩],
   [⟨some "start", some "E"⟩],
   [⟨"vA", "A"⟩, ⟨"vZ", "Z"⟩], none⟩

/-- An edge whose from endpoint carries all four reference fields. -/
def exPriorityEdge : Edge :=
  ⟨some "ed1", ⟨some "E", some "I", some "B", some "G"⟩, ⟨some "T", none⟩⟩

/-- A text block whose only rich-text line is whitespace. -/
def exWhitespaceTextBlock : Block :=
  ⟨"t2", some "text", ⟨none, none, none⟩, [], ⟨[⟨[some "   "]⟩]⟩⟩

/-- A text block reading Hello. -/
def exHelloTextBlock : Block :=
  ⟨"t1", some "text", ⟨none, none, none⟩, [], ⟨[⟨[some "Hello"]⟩]⟩⟩

/-- An input block bound to variable id vN. -/
def exInputBlock : Block :=
  ⟨"i1", some "text input", ⟨some "vN", none, none⟩, [], ⟨[]⟩⟩

/-- A second input block bound to variable id vM. -/
def exInputBlock2 : Block :=
  ⟨"i2", some "text input", ⟨some "vM", none, none⟩, [], ⟨[]⟩⟩

/-- A two-entry variables dict for the question examples. -/
def exVarPairs : List (String × String) := [("vN", "Name"), ("vM", "Mail")]

/-- Number of group-dict keys not yet visited: the termination measure
of trace_flow (each fresh entry of a real group strictly decreases it). -/
def remaining (bot : Typebot) (s : TraceState) : Nat :=
  ((groupKeys bot).toFinset \ s.visited.toFinset).card

/-- Invariant of the ordered_variables list maintained by trace_flow: no
duplicates, and every entry is a value of the variables dict. -/
def orderedInv (names : List String) (s : TraceState) : Prop :=
  s.ordered.Nodup ∧ ∀ x ∈ s.ordered, x ∈ names

/-- A foldl preserves any invariant its step preserves. -/
theorem foldl_pres {σ α : Type} (P : σ → Prop) (f : σ → α → σ)
    (hf : ∀ s a, P s → P (f s a)) :
    ∀ (l : List α) (s : σ), P s → P (l.foldl f s) := by
  intro l
  induction l with
  | nil => intro s hs; exact hs
  | cons a t ih => intro s hs; exact ih (f s a) (hf s a hs)

/-- Two foldls agree when their steps agree on all states satisfying an
invariant preserved by the first step. -/
theorem foldl_congr_pres {σ α : Type} (P : σ → Prop) (f g : σ → α → σ)
    (hf : ∀ s a, P s → P (f s a)) (hfg : ∀ s a, P s → f s a = g s a) :
    ∀ (l : List α) (s : σ), P s → l.foldl f s = l.foldl g s := by
  intro l
  induction l with
  | nil => intro s _; rfl
  | cons a t ih =>
    intro s hs
    simp only [List.foldl_cons]
    rw [← hfg s a hs]
    exact ih (f s a) (hf s a hs)

/-- A conditional-append foldl is an append of a filtered map. -/
theorem foldl_append_if {α β : Type} (p : α → Bool) (f : α → β) :
    ∀ (l : List α) (acc : List β),
      l.foldl (fun a x => if p x then a ++ [f x] else a) acc = acc ++ (l.filter p).map f := by
  intro l
  induction l with
  | nil => intro acc; simp
  | cons a t ih =>
    intro acc
    simp only [List.foldl_cons, List.filter_cons]
    by_cases h : p a
    · simp only [h, if_true, ih, List.map_cons, List.append_assoc, List.singleton_append]
    · simp [h, ih]

/-- An optional-append foldl is an append of a filterMap. -/
theorem foldl_append_opt {α β : Type} (f : α → Option β) :
    ∀ (l : List α) (acc : List β),
      l.foldl (fun a x => match f x with | some b => a ++ [b] | none => a) acc
        = acc ++ l.filterMap f := by
  intro l
  induction l with
  | nil => intro acc; simp
  | cons a t ih =>
    intro acc
    simp only [List.foldl_cons, List.filterMap_cons]
    cases h : f a with
    | none => simp [h, ih]
    | some b => simp only [h, ih, List.append_assoc, List.singleton_append]

/-- A list-append foldl is an append of the flattened maps. -/
theorem foldl_append_flat {α β : Type} (h : α → List β) :
    ∀ (l : List α) (acc : List β),
      l.foldl (fun a x => a ++ h x) acc = acc ++ (l.map h).flatten := by
  intro l
  induction l with
  | nil => intro acc; simp
  | cons a t ih => intro acc; simp [ih]

/-- Looking up after one more insertion: the new pair wins on its key. -/
theorem lookupLast_concat {α : Type} (pairs : List (String × α)) (p : String × α) (k : String) :
    lookupLast (pairs ++ [p]) k = if p.1 = k then some p.2 else lookupLast pairs k := by
  unfold lookupLast
  rw [List.foldl_append]
  simp only [List.foldl_cons, List.foldl_nil]

/-- A key is absent from the dict exactly when lookupLast yields none. -/
theorem lookupLast_eq_none {α : Type} :
    ∀ (pairs : List (String × α)) (k : String),
      lookupLast pairs k = none ↔ k ∉ pairs.map Prod.fst := by
  intro pairs
  induction pairs using List.reverseRecOn with
  | nil => intro k; simp [lookupLast]
  | append_singleton t p ih =>
    intro k
    rw [lookupLast_concat]
    by_cases h : p.1 = k
    · simp [h]
    · simp only [h, if_false, ih, List.map_append, List.map_cons, List.map_nil]
      simp [List.mem_append, h]
      tauto

/-- A present key resolves to some value. -/
theorem lookupLast_isSome_of_mem {α : Type} (pairs : List (String × α)) (k : String)
    (h : k ∈ pairs.map Prod.fst) : ∃ v, lookupLast pairs k = some v := by
  cases hv : lookupLast pairs k with
  | none => exact absurd ((lookupLast_eq_none pairs k).mp hv) (not_not_intro h)
  | some v => exact ⟨v, rfl⟩

/-- firstKeys preserves membership. -/
theorem mem_firstKeys : ∀ (l : List String) (k : String), k ∈ firstKeys l ↔ k ∈ l := by
  intro l
  induction l with
  | nil => intro k; simp [firstKeys]
  | cons a rest ih =>
    intro k
    rw [firstKeys]
    by_cases h : k = a
    · simp [h]
    · simp only [List.mem_cons, h, false_or]
      rw [List.mem_filter]
      simp only [ih]
      simp [h]

/-- firstKeys has no duplicates. -/
theorem nodup_firstKeys : ∀ (l : List String), (firstKeys l).Nodup := by
  intro l
  induction l with
  | nil => simp [firstKeys]
  | cons a rest ih =>
    rw [firstKeys]
    refine List.Nodup.cons ?_ (List.Nodup.filter _ ih)
    intro hmem
    rw [List.mem_filter] at hmem
    simp at hmem

/-- The value a present key resolves to is among the dict's values. -/
theorem mem_dictValues (pairs : List (String × String)) (k v : String)
    (hk : k ∈ pairs.map Prod.fst) (hv : lookupLast pairs k = some v) :
    v ∈ dictValues pairs := by
  unfold dictValues
  exact List.mem_filterMap.mpr ⟨k, (mem_firstKeys _ k).mpr hk, hv⟩

/-- A foldl whose step only grows the visited set only grows it. -/
theorem foldl_visited_sub {α : Type} (f : TraceState → α → TraceState)
    (hf : ∀ s a, s.visited ⊆ (f s a).visited) :
    ∀ (l : List α) (s : TraceState), s.visited ⊆ (l.foldl f s).visited := by
  intro l
  induction l with
  | nil => intro s; exact fun x hx => hx
  | cons a t ih => intro s; exact List.Subset.trans (hf s a) (ih (f s a))

/-- captureVar never touches the visited set. -/
theorem captureVar_visited (d : List (String × String)) (s : TraceState) (b : Block) :
    (captureVar d s b).visited = s.visited := by
  unfold captureVar
  cases b.options.variableId with
  | none => rfl
  | some vid =>
    simp only
    split
    · cases lookupLast d vid with
      | none => rfl
      | some name =>
        simp only
        split
        · rfl
        · rfl
    · rfl

/-- followTarget only grows the visited set when tf does. -/
theorem followTarget_visited_sub (tf : String → Option String → TraceState → TraceState)
    (htf : ∀ g sb s, s.visited ⊆ (tf g sb s).visited) (s : TraceState) (t : EdgeTo) :
    s.visited ⊆ (followTarget tf s t).visited := by
  unfold followTarget
  split
  · exact htf _ _ s
  · exact fun x hx => hx

/-- itemsStep only grows the visited set when tf does. -/
theorem itemsStep_visited_sub (bot : Typebot)
    (tf : String → Option String → TraceState → TraceState)
    (htf : ∀ g sb s, s.visited ⊆ (tf g sb s).visited) (s : TraceState) (it : Item) :
    s.visited ⊆ (itemsStep bot tf s it).visited := by
  unfold itemsStep
  exact foldl_visited_sub _ (followTarget_visited_sub tf htf) _ s

/-- jumpStep only grows the visited set when tf does. -/
theorem jumpStep_visited_sub (bot : Typebot)
    (tf : String → Option String → TraceState → TraceState)
    (htf : ∀ g sb s, s.visited ⊆ (tf g sb s).visited) (s : TraceState) (b : Block) :
    s.visited ⊆ (jumpStep bot tf s b).visited := by
  unfold jumpStep
  split
  · split
    · exact htf _ _ s
    · exact fun x hx => hx
  · exact fun x hx => hx

/-- stepBlock only grows the visited set when tf does. -/
theorem stepBlock_visited_sub (bot : Typebot)
    (tf : String → Option String → TraceState → TraceState)
    (htf : ∀ g sb s, s.visited ⊆ (tf g sb s).visited) (s : TraceState) (b : Block) :
    s.visited ⊆ (stepBlock bot tf s b).visited := by
  unfold stepBlock
  refine List.Subset.trans ?_ (jumpStep_visited_sub bot tf htf _ b)
  refine List.Subset.trans ?_ (foldl_visited_sub _ (followTarget_visited_sub tf htf) _ _)
  refine List.Subset.trans ?_ (foldl_visited_sub _ (itemsStep_visited_sub bot tf htf) _ _)
  rw [captureVar_visited]
  exact fun x hx => hx

/-- traceFlow only grows the visited set. -/
theorem traceFlow_visited_sub (bot : Typebot) :
    ∀ (fuel : Nat) (gid : String) (sb : Option String) (st : TraceState),
      st.visited ⊆ (traceFlow bot fuel gid sb st).visited := by
  intro fuel
  induction fuel with
  | zero => intro gid sb st; exact fun x hx => hx
  | succ fuel ih =>
    intro gid sb st
    rw [traceFlow]
    split
    · exact fun x hx => hx
    · cases hg : lookupLast (groupPairsOf bot) gid with
      | none => simp only [hg]; exact List.subset_cons_self _ _
      | some group =>
        simp only [hg]
        have h1 : st.visited ⊆ gid :: st.visited := List.subset_cons_self gid st.visited
        exact List.Subset.trans h1
          (foldl_visited_sub _
            (stepBlock_visited_sub bot _ (fun g sb2 s => ih g sb2 s)) _
            ⟨st.ordered, gid :: st.visited⟩)

/-- Growing the visited set can only shrink the remaining measure. -/
theorem remaining_le_of_sub (bot : Typebot) {s t : TraceState}
    (h : s.visited ⊆ t.visited) : remaining bot t ≤ remaining bot s := by
  unfold remaining
  apply Finset.card_le_card
  apply Finset.sdiff_subset_sdiff (Finset.Subset.refl _)
  intro x hx
  exact List.mem_toFinset.mpr (h (List.mem_toFinset.mp hx))

/-- Marking a fresh real group visited strictly decreases the measure. -/
theorem remaining_cons_lt (bot : Typebot) (gid : String) (st : TraceState)
    (hk : gid ∈ groupKeys bot) (hv : gid ∉ st.visited) :
    remaining bot ⟨st.ordered, gid :: st.visited⟩ < remaining bot st := by
  unfold remaining
  have hmem : gid ∈ (groupKeys bot).toFinset \ st.visited.toFinset := by
    rw [Finset.mem_sdiff]
    exact ⟨List.mem_toFinset.mpr hk, fun hc => hv (List.mem_toFinset.mp hc)⟩
  have h2 : (groupKeys bot).toFinset \ (gid :: st.visited).toFinset
      = ((groupKeys bot).toFinset \ st.visited.toFinset).erase gid := by
    ext x
    simp only [Finset.mem_sdiff, List.mem_toFinset, List.mem_cons, Finset.mem_erase]
    tauto
  simp only [h2]
  rw [Finset.card_erase_of_mem hmem]
  have hpos := Finset.card_pos.mpr ⟨gid, hmem⟩
  omega

/-- A successful group lookup means the id is a group key. -/
theorem groupKeys_of_lookup (bot : Typebot) (gid : String) (g : BotGroup)
    (h : lookupLast (groupPairsOf bot) gid = some g) : gid ∈ groupKeys bot := by
  by_contra hn
  have hnone : lookupLast (groupPairsOf bot) gid = none := by
    rw [lookupLast_eq_none]
    intro hmem
    apply hn
    unfold groupKeys
    rw [mem_firstKeys]
    simpa [groupPairsOf, List.map_map, Function.comp] using hmem
  rw [hnone] at h
  exact Option.noConfusion h

/-- With no remaining groups, a fresh id cannot be a group: its lookup
fails. -/
theorem lookup_group_none_of_remaining_zero (bot : Typebot) (gid : String) (st : TraceState)
    (h0 : remaining bot st = 0) (hv : gid ∉ st.visited) :
    lookupLast (groupPairsOf bot) gid = none := by
  cases hg : lookupLast (groupPairsOf bot) gid with
  | none => rfl
  | some g =>
    exfalso
    have hk := groupKeys_of_lookup bot gid g hg
    have hmem : gid ∈ (groupKeys bot).toFinset \ st.visited.toFinset := by
      rw [Finset.mem_sdiff]
      exact ⟨List.mem_toFinset.mpr hk, fun hc => hv (List.mem_toFinset.mp hc)⟩
    have hpos := Finset.card_pos.mpr ⟨gid, hmem⟩
    unfold remaining at h0
    omega

/-- followTarget only depends on tf at states satisfying the measure
bound. -/
theorem followTarget_congr (bot : Typebot) (n : Nat)
    (tf₁ tf₂ : String → Option String → TraceState → TraceState)
    (hcong : ∀ g sb s, remaining bot s ≤ n → tf₁ g sb s = tf₂ g sb s) :
    ∀ s t, remaining bot s ≤ n → followTarget tf₁ s t = followTarget tf₂ s t := by
  intro s t hs
  unfold followTarget
  split
  · exact hcong _ _ s hs
  · rfl

/-- itemsStep congruence under the measure bound. -/
theorem itemsStep_congr (bot : Typebot) (n : Nat)
    (tf₁ tf₂ : String → Option String → TraceState → TraceState)
    (htf₁ : ∀ g sb s, s.visited ⊆ (tf₁ g sb s).visited)
    (hcong : ∀ g sb s, remaining bot s ≤ n → tf₁ g sb s = tf₂ g sb s) :
    ∀ s it, remaining bot s ≤ n → itemsStep bot tf₁ s it = itemsStep bot tf₂ s it := by
  intro s it hs
  unfold itemsStep
  exact foldl_congr_pres (fun s => remaining bot s ≤ n) _ _
    (fun s t hsP =>
      le_trans (remaining_le_of_sub bot (followTarget_visited_sub tf₁ htf₁ s t)) hsP)
    (fun s t hsP => followTarget_congr bot n tf₁ tf₂ hcong s t hsP) _ s hs

/-- jumpStep congruence under the measure bound. -/
theorem jumpStep_congr (bot : Typebot) (n : Nat)
    (tf₁ tf₂ : String → Option String → TraceState → TraceState)
    (hcong : ∀ g sb s, remaining bot s ≤ n → tf₁ g sb s = tf₂ g sb s) :
    ∀ s b, remaining bot s ≤ n → jumpStep bot tf₁ s b = jumpStep bot tf₂ s b := by
  intro s b hs
  unfold jumpStep
  split
  · split
    · exact hcong _ _ s hs
    · rfl
  · rfl

/-- stepBlock congruence under the measure bound. -/
theorem stepBlock_congr (bot : Typebot) (n : Nat)
    (tf₁ tf₂ : String → Option String → TraceState → TraceState)
    (htf₁ : ∀ g sb s, s.visited ⊆ (tf₁ g sb s).visited)
    (hcong : ∀ g sb s, remaining bot s ≤ n → tf₁ g sb s = tf₂ g sb s) :
    ∀ s b, remaining bot s ≤ n → stepBlock bot tf₁ s b = stepBlock bot tf₂ s b := by
  intro s b hs
  unfold stepBlock
  have hc : remaining bot (captureVar (varPairsOf bot) s b) ≤ n := by
    have he : remaining bot (captureVar (varPairsOf bot) s b) = remaining bot s := by
      unfold remaining
      rw [captureVar_visited]
    omega
  have e1 : b.items.foldl (itemsStep bot tf₁) (captureVar (varPairsOf bot) s b)
      = b.items.foldl (itemsStep bot tf₂) (captureVar (varPairsOf bot) s b) :=
    foldl_congr_pres (fun s => remaining bot s ≤ n) _ _
      (fun s a hsP =>
        le_trans (remaining_le_of_sub bot (itemsStep_visited_sub bot tf₁ htf₁ s a)) hsP)
      (fun s a hsP => itemsStep_congr bot n tf₁ tf₂ htf₁ hcong s a hsP) _ _ hc
  have h2 : remaining bot (b.items.foldl (itemsStep bot tf₁) (captureVar (varPairsOf bot) s b)) ≤ n :=
    foldl_pres (fun s => remaining bot s ≤ n) _
      (fun s a hsP =>
        le_trans (remaining_le_of_sub bot (itemsStep_visited_sub bot tf₁ htf₁ s a)) hsP) _ _ hc
  have e2 : (get_targets bot.edges (some b.id) none none none).foldl (followTarget tf₁)
        (b.items.foldl (itemsStep bot tf₁) (captureVar (varPairsOf bot) s b))
      = (get_targets bot.edges (some b.id) none none none).foldl (followTarget tf₂)
        (b.items.foldl (itemsStep bot tf₁) (captureVar (varPairsOf bot) s b)) :=
    foldl_congr_pres (fun s => remaining bot s ≤ n) _ _
      (fun s a hsP =>
        le_trans (remaining_le_of_sub bot (followTarget_visited_sub tf₁ htf₁ s a)) hsP)
      (fun s a hsP => followTarget_congr bot n tf₁ tf₂ hcong s a hsP) _ _ h2
  have h3 : remaining bot ((get_targets bot.edges (some b.id) none none none).foldl
        (followTarget tf₁)
        (b.items.foldl (itemsStep bot tf₁) (captureVar (varPairsOf bot) s b))) ≤ n :=
    foldl_pres (fun s => remaining bot s ≤ n) _
      (fun s a hsP =>
        le_trans (remaining_le_of_sub bot (followTarget_visited_sub tf₁ htf₁ s a)) hsP) _ _ h2
  rw [jumpStep_congr bot n tf₁ tf₂ hcong _ b h3, e2, e1]

/-- traceFlow does not depend on the fuel once the fuel strictly exceeds
the remaining measure of the starting state. -/
theorem traceFlow_congr (bot : Typebot) :
    ∀ (n fuel₁ fuel₂ : Nat) (gid : String) (sb : Option String) (st : TraceState),
      remaining bot st ≤ n → n < fuel₁ → n < fuel₂ →
      traceFlow bot fuel₁ gid sb st = traceFlow bot fuel₂ gid sb st := by
  intro n
  induction n with
  | zero =>
    intro fuel₁ fuel₂ gid sb st hr h1 h2
    cases fuel₁ with
    | zero => omega
    | succ k₁ =>
      cases fuel₂ with
      | zero => omega
      | succ k₂ =>
        rw [traceFlow, traceFlow]
        by_cases h : gid ∈ st.visited
        · rw [if_pos h, if_pos h]
        · rw [if_neg h, if_neg h]
          have hg : lookupLast (groupPairsOf bot) gid = none :=
            lookup_group_none_of_remaining_zero bot gid st (Nat.le_zero.mp hr) h
          simp only [hg]
  | succ n ih =>
    intro fuel₁ fuel₂ gid sb st hr h1 h2
    cases fuel₁ with
    | zero => omega
    | succ k₁ =>
      cases fuel₂ with
      | zero => omega
      | succ k₂ =>
        rw [traceFlow, traceFlow]
        by_cases h : gid ∈ st.visited
        · rw [if_pos h, if_pos h]
        · rw [if_neg h, if_neg h]
          cases hg : lookupLast (groupPairsOf bot) gid with
          | none => simp only [hg]
          | some group =>
            simp only [hg]
            have hk : gid ∈ groupKeys bot := groupKeys_of_lookup bot gid group hg
            have hst1 : remaining bot ⟨st.ordered, gid :: st.visited⟩ ≤ n := by
              have := remaining_cons_lt bot gid st hk h
              omega
            exact foldl_congr_pres (fun s => remaining bot s ≤ n) _ _
              (fun s a hsP =>
                le_trans
                  (remaining_le_of_sub bot
                    (stepBlock_visited_sub bot _ (fun g sb2 s2 => traceFlow_visited_sub bot k₁ g sb2 s2) s a))
                  hsP)
              (fun s a hsP =>
                stepBlock_congr bot n _ _
                  (fun g sb2 s2 => traceFlow_visited_sub bot k₁ g sb2 s2)
                  (fun g sb2 s2 hs2 => ih k₁ k₂ g sb2 s2 hs2 (by omega) (by omega)) s a hsP)
              _ _ hst1

/-- The remaining measure never exceeds the number of distinct groups. -/
theorem remaining_le_length (bot : Typebot) (st : TraceState) :
    remaining bot st ≤ (groupKeys bot).length := by
  unfold remaining
  exact le_trans (Finset.card_le_card Finset.sdiff_subset) (List.toFinset_card_le _)

/-- Any fuel exceeding the distinct-group count yields the same trace. -/
theorem traceFlow_fuel_eq (bot : Typebot) (fuel₁ fuel₂ : Nat)
    (h₁ : (groupKeys bot).length < fuel₁) (h₂ : (groupKeys bot).length < fuel₂)
    (gid : String) (sb : Option String) (st : TraceState) :
    traceFlow bot fuel₁ gid sb st = traceFlow bot fuel₂ gid sb st :=
  traceFlow_congr bot ((groupKeys bot).length) fuel₁ fuel₂ gid sb st
    (remaining_le_length bot st) h₁ h₂

/-- runTrace does not depend on the fuel beyond the distinct-group count. -/
theorem runTrace_fuel_eq (bot : Typebot) (fuel₁ fuel₂ : Nat)
    (h₁ : (groupKeys bot).length < fuel₁) (h₂ : (groupKeys bot).length < fuel₂)
    (targets : List EdgeTo) :
    runTrace bot fuel₁ targets = runTrace bot fuel₂ targets := by
  unfold runTrace
  have he : (fun g sb s => traceFlow bot fuel₁ g sb s)
      = (fun g sb s => traceFlow bot fuel₂ g sb s) := by
    funext g sb s
    exact traceFlow_fuel_eq bot fuel₁ fuel₂ h₁ h₂ g sb s
  rw [he]

/-- captureVar preserves the ordered-list invariant: it appends only a
fresh name that is a value of the variables dict. -/
theorem captureVar_inv (d : List (String × String)) (s : TraceState) (b : Block)
    (h : orderedInv (dictValues d) s) : orderedInv (dictValues d) (captureVar d s b) := by
  unfold captureVar
  cases b.options.variableId with
  | none => exact h
  | some vid =>
    simp only
    split
    case isFalse => exact h
    case isTrue hmem =>
      cases hl : lookupLast d vid with
      | none => exact h
      | some name =>
        simp only
        split
        case isTrue => exact h
        case isFalse hnm =>
          constructor
          · simp only [List.nodup_append, List.nodup_cons, List.not_mem_nil, not_false_iff,
              List.nodup_nil, and_true, true_and]
            exact ⟨h.1, by simp [List.Disjoint]; exact fun x hx hxe => hnm (hxe ▸ hx)⟩
          · intro x hx
            rcases List.mem_append.mp hx with h1 | h2
            · exact h.2 x h1
            · have hxn : x = name := by simpa using h2
              subst hxn
              exact mem_dictValues d vid x hmem.2 hl

/-- followTarget preserves the ordered-list invariant when tf does. -/
theorem followTarget_inv (names : List String)
    (tf : String → Option String → TraceState → TraceState)
    (htf : ∀ g sb s, orderedInv names s → orderedInv names (tf g sb s)) :
    ∀ s t, orderedInv names s → orderedInv names (followTarget tf s t) := by
  intro s t hs
  unfold followTarget
  split
  · exact htf _ _ s hs
  · exact hs

/-- itemsStep preserves the ordered-list invariant when tf does. -/
theorem itemsStep_inv (bot : Typebot) (names : List String)
    (tf : String → Option String → TraceState → TraceState)
    (htf : ∀ g sb s, orderedInv names s → orderedInv names (tf g sb s)) :
    ∀ s it, orderedInv names s → orderedInv names (itemsStep bot tf s it) := by
  intro s it hs
  unfold itemsStep
  exact foldl_pres (orderedInv names) _ (followTarget_inv names tf htf) _ s hs

/-- jumpStep preserves the ordered-list invariant when tf does. -/
theorem jumpStep_inv (bot : Typebot) (names : List String)
    (tf : String → Option String → TraceState → TraceState)
    (htf : ∀ g sb s, orderedInv names s → orderedInv names (tf g sb s)) :
    ∀ s b, orderedInv names s → orderedInv names (jumpStep bot tf s b) := by
  intro s b hs
  unfold jumpStep
  split
  · split
    · exact htf _ _ s hs
    · exact hs
  · exact hs

/-- stepBlock preserves the ordered-list invariant when tf does. -/
theorem stepBlock_inv (bot : Typebot)
    (tf : String → Option String → TraceState → TraceState)
    (htf : ∀ g sb s, orderedInv (dictValues (varPairsOf bot)) s
      → orderedInv (dictValues (varPairsOf bot)) (tf g sb s)) :
    ∀ s b, orderedInv (dictValues (varPairsOf bot)) s
      → orderedInv (dictValues (varPairsOf bot)) (stepBlock bot tf s b) := by
  intro s b hs
  unfold stepBlock
  apply jumpStep_inv bot _ tf htf
  apply foldl_pres _ _ (followTarget_inv _ tf htf)
  apply foldl_pres _ _ (itemsStep_inv bot _ tf htf)
  exact captureVar_inv (varPairsOf bot) s b hs

/-- traceFlow preserves the ordered-list invariant: its visited set grows
and its ordered list only gains fresh dict values. -/
theorem traceFlow_inv (bot : Typebot) :
    ∀ (fuel : Nat) (gid : String) (sb : Option String) (st : TraceState),
      orderedInv (dictValues (varPairsOf bot)) st
      → orderedInv (dictValues (varPairsOf bot)) (traceFlow bot fuel gid sb st) := by
  intro fuel
  induction fuel with
  | zero => intro gid sb st hs; exact hs
  | succ fuel ih =>
    intro gid sb st hs
    rw [traceFlow]
    split
    · exact hs
    · cases hg : lookupLast (groupPairsOf bot) gid with
      | none => simp only [hg]; exact ⟨hs.1, hs.2⟩
      | some group =>
        simp only [hg]
        apply foldl_pres _ _ (stepBlock_inv bot _ (fun g sb2 s2 => ih g sb2 s2))
        exact ⟨hs.1, hs.2⟩

/-- The state produced by runTrace satisfies the ordered-list invariant. -/
theorem runTrace_inv (bot : Typebot) (fuel : Nat) (targets : List EdgeTo) :
    orderedInv (dictValues (varPairsOf bot)) (runTrace bot fuel targets) := by
  unfold runTrace
  apply foldl_pres _ _
    (followTarget_inv _ _ (fun g sb s => traceFlow_inv bot fuel g sb s))
  exact ⟨List.nodup_nil, by intro x hx; exact absurd hx (List.not_mem_nil x)⟩

/-- Membership in an appendMissing result. -/
theorem mem_appendMissing :
    ∀ (l acc : List String) (x : String), x ∈ appendMissing acc l ↔ x ∈ acc ∨ x ∈ l := by
  intro l
  induction l with
  | nil => intro acc x; simp [appendMissing]
  | cons n t ih =>
    intro acc x
    unfold appendMissing at ih ⊢
    simp only [List.foldl_cons]
    by_cases hn : n ∈ acc
    · rw [if_pos hn, ih]
      constructor
      · rintro (h | h)
        · exact Or.inl h
        · exact Or.inr (List.mem_cons_of_mem n h)
      · rintro (h | h)
        · exact Or.inl h
        · rcases List.mem_cons.mp h with rfl | h2
          · exact Or.inl hn
          · exact Or.inr h2
    · rw [if_neg hn, ih]
      simp only [List.mem_append, List.mem_singleton, List.mem_cons]
      tauto

/-- appendMissing keeps the accumulator duplicate-free. -/
theorem nodup_appendMissing :
    ∀ (l acc : List String), acc.Nodup → (appendMissing acc l).Nodup := by
  intro l
  induction l with
  | nil => intro acc h; exact h
  | cons n t ih =>
    intro acc h
    unfold appendMissing at ih ⊢
    simp only [List.foldl_cons]
    by_cases hn : n ∈ acc
    · rw [if_pos hn]; exact ih acc h
    · rw [if_neg hn]
      apply ih
      simp only [List.nodup_append, List.nodup_cons, List.not_mem_nil, not_false_iff,
        List.nodup_nil, and_true, true_and]
      exact ⟨h, by simp [List.Disjoint]; exact fun x hx hxe => hn (hxe ▸ hx)⟩

/-- appendMissing is exactly an append of the fresh first occurrences. -/
theorem appendMissing_eq :
    ∀ (l acc : List String), appendMissing acc l = acc ++ dedupFirstNotIn l acc := by
  intro l
  induction l with
  | nil => intro acc; simp [appendMissing, dedupFirstNotIn]
  | cons n t ih =>
    intro acc
    unfold appendMissing at ih ⊢
    simp only [List.foldl_cons]
    rw [dedupFirstNotIn]
    by_cases hn : n ∈ acc
    · rw [if_pos hn, if_pos hn, ih]
    · rw [if_neg hn, if_neg hn, ih]
      simp [List.append_assoc]

/-- Every name appended by the fallback pass was absent before it. -/
theorem dedupFirstNotIn_not_mem :
    ∀ (l acc : List String) (x : String), x ∈ dedupFirstNotIn l acc → x ∉ acc := by
  intro l
  induction l with
  | nil => intro acc x h; exact absurd h (List.not_mem_nil x)
  | cons n t ih =>
    intro acc x h
    rw [dedupFirstNotIn] at h
    by_cases hn : n ∈ acc
    · rw [if_pos hn] at h
      exact ih acc x h
    · rw [if_neg hn] at h
      rcases List.mem_cons.mp h with rfl | h2
      · exact hn
      · intro hacc
        exact ih (acc ++ [n]) x h2 (List.mem_append.mpr (Or.inl hacc))

/-- collectSkippedVars is a filterMap over the window. -/
theorem collectSkippedVars_eq (allBlocksL : List (String × Block)) :
    ∀ (l : List String),
      collectSkippedVars allBlocksL l
        = l.filterMap (fun sbid =>
            match lookupLast allBlocksL sbid with
            | some sb =>
              if hasInputTag (sb.type.getD "") then
                match sb.options.variableId with
                | some vid => if vid ≠ "" then some vid else none
                | none => none
              else none
            | none => none) := by
  have key : ∀ (l : List String) (acc : List String),
      l.foldl
        (fun acc sbid =>
          match lookupLast allBlocksL sbid with
          | some sb =>
            if hasInputTag (sb.type.getD "") then
              match sb.options.variableId with
              | some vid => if vid ≠ "" then acc ++ [vid] else acc
              | none => acc
            else acc
          | none => acc) acc
        = acc ++ l.filterMap (fun sbid =>
            match lookupLast allBlocksL sbid with
            | some sb =>
              if hasInputTag (sb.type.getD "") then
                match sb.options.variableId with
                | some vid => if vid ≠ "" then some vid else none
                | none => none
              else none
            | none => none) := by
    intro l
    induction l with
    | nil => intro acc; simp
    | cons sbid t ih =>
      intro acc
      simp only [List.foldl_cons, List.filterMap_cons]
      cases hb : lookupLast allBlocksL sbid with
      | none => simp only [hb]; exact ih acc
      | some sb =>
        simp only [hb]
        by_cases hin : hasInputTag (sb.type.getD "")
        · simp only [hin, if_true]
          cases hv : sb.options.variableId with
          | none => simp only; exact ih acc
          | some vid =>
            by_cases hne : vid = ""
            · subst hne
              simp only [ne_eq, not_true_eq_false, if_false, if_neg]
              exact ih acc
            · simp only [ne_eq, hne, not_false_eq_true, if_true, if_pos]
              rw [ih (acc ++ [vid])]
              simp [List.append_assoc]
        · simp only [hin, if_false, Bool.false_eq_true]
          exact ih acc
  intro l
  unfold collectSkippedVars
  have h2 := key l []
  simpa using h2

/-- Resolving the collected ids yields exactly the per-block window
contributions, in window order. -/
theorem resolve_collect_eq (allBlocksL : List (String × Block))
    (variablesD : List (String × String)) (l : List String) :
    resolveAffected variablesD (collectSkippedVars allBlocksL l)
      = l.filterMap (windowContribution allBlocksL variablesD) := by
  rw [collectSkippedVars_eq]
  unfold resolveAffected
  rw [List.filterMap_filterMap]
  apply List.filterMap_congr
  intro sbid _
  cases hb : lookupLast allBlocksL sbid with
  | none => simp [windowContribution, hb]
  | some sb =>
    unfold windowContribution
    simp only [hb]
    by_cases hin : hasInputTag (sb.type.getD "")
    · cases hv : sb.options.variableId with
      | none => simp [hin, truthy]
      | some vid =>
        by_cases hne : vid = ""
        · subst hne
          simp [hin, truthy]
        · by_cases hmem : vid ∈ variablesD.map Prod.fst
          · simp [hin, hne, hmem, truthy, Option.bind]
          · simp [hin, hne, hmem, truthy, Option.bind]
    · simp [hin]

/-- The per-block inner loop of generate_constraints appends exactly the
constraints emitted by its items, in item order. -/
theorem inner_fold_eq (edges : List Edge) (vD : List (String × String))
    (aB : List (String × Block)) (bG : List (String × String))
    (oL : List (String × List String)) (bid : String) :
    ∀ (items : List Item) (cs : List Constraint),
      items.foldl (fun cs2 item =>
        match processItem edges vD aB bG oL bid item with
        | some c => cs2 ++ [c]
        | none => cs2) cs
      = cs ++ items.filterMap (fun it => processItem edges vD aB bG oL bid it) := by
  intro items
  induction items with
  | nil => intro cs; simp
  | cons it t ih =>
    intro cs
    simp only [List.foldl_cons, List.filterMap_cons]
    cases h : processItem edges vD aB bG oL bid it with
    | none => simp only [h]; exact ih cs
    | some c =>
      simp only [h]
      rw [ih]
      simp [List.append_assoc]

/-- The outer loop of generate_constraints is a flattened per-block map. -/
theorem gc_fold_eq (edges : List Edge) (vD : List (String × String))
    (aB : List (String × Block)) (bG : List (String × String))
    (oL : List (String × List String)) :
    ∀ (L : List (String × Block)) (cs : List Constraint),
      L.foldl (fun cs p =>
        if p.2.type == some "Condition" then
          p.2.items.foldl (fun cs2 item =>
            match processItem edges vD aB bG oL p.1 item with
            | some c => cs2 ++ [c]
            | none => cs2) cs
        else cs) cs
      = cs ++ (L.map (fun p =>
          if p.2.type == some "Condition" then
            p.2.items.filterMap (fun it => processItem edges vD aB bG oL p.1 it)
          else [])).flatten := by
  intro L
  induction L with
  | nil => intro cs; simp
  | cons p t ih =>
    intro cs
    simp only [List.foldl_cons, List.map_cons, List.flatten_cons]
    by_cases hc : (p.2.type == some "Condition") = true
    · rw [if_pos hc, if_pos hc, inner_fold_eq, ih]
      simp [List.append_assoc]
    · rw [if_neg hc, if_neg hc, ih]
      simp

/-- The conditionItems fold is a flattened per-block map. -/
theorem condItems_fold_eq :
    ∀ (L : List (String × Block)) (acc : List (String × Item)),
      L.foldl (fun acc p =>
        if p.2.type == some "Condition" then acc ++ p.2.items.map (fun it => (p.1, it))
        else acc) acc
      = acc ++ (L.map (fun p =>
          if p.2.type == some "Condition" then p.2.items.map (fun it => (p.1, it))
          else [])).flatten := by
  intro L
  induction L with
  | nil => intro acc; simp
  | cons p t ih =>
    intro acc
    simp only [List.foldl_cons, List.map_cons, List.flatten_cons]
    by_cases hc : (p.2.type == some "Condition") = true
    · rw [if_pos hc, if_pos hc, ih]
      simp [List.append_assoc]
    · rw [if_neg hc, if_neg hc, ih]
      simp

/-- generate_constraints processes every item of every Condition block
independently: it equals a filterMap of processItem over conditionItems. -/
theorem generate_constraints_eq (bot : Typebot) :
    generate_constraints bot
      = (conditionItems bot).filterMap
          (fun p => processItem bot.edges (varPairsOf bot) (allBlockPairsOf bot)
            (blockGroupPairsOf bot) (orderPairsOf bot) p.1 p.2) := by
  unfold generate_constraints conditionItems
  rw [gc_fold_eq, condItems_fold_eq]
  simp only [List.nil_append]
  rw [List.filterMap_flatten, List.map_map]
  congr 1
  apply List.map_congr_left
  intro p _
  by_cases hc : (p.2.type == some "Condition") = true
  · simp only [Function.comp, if_pos hc]
    rw [List.filterMap_map]
    rfl
  · simp only [Function.comp, if_neg hc]
    rfl

/-- get_targets is the filtered-and-mapped edge list. -/
theorem get_targets_eq_filter (edges : List Edge)
    (block_id group_id item_id event_id : Option String) :
    get_targets edges block_id group_id item_id event_id
      = (edges.filter (edgeMatch block_id group_id item_id event_id)).map Edge.toE := by
  unfold get_targets
  have h := foldl_append_if (edgeMatch block_id group_id item_id event_id) Edge.toE edges []
  simpa using h

/-- C1: for a condition Item with a resolved outgoing edge, the skip
window is the rest of the owning group's block order after the condition
block when the edge's truthy target group id differs from the owning
group; the block-order slice strictly between condition-block index and
target-block index when the target block is in the same group's order
(and no inter-group case applies); and empty otherwise, in which case the
Item yields no Constraint at all. -/
theorem c1_skip_window (ord : List String) (bid : String) (toGroupId toBlockId : Option String)
    (fromGroupId : String) (hbid : bid ∈ ord) :
    ((truthy toGroupId = true ∧ toGroupId.getD "" ≠ fromGroupId) →
      skippedBlockIds ord bid toGroupId toBlockId fromGroupId
        = ord.drop (ord.findIdx (fun x => x = bid) + 1))
    ∧ (¬(truthy toGroupId = true ∧ toGroupId.getD "" ≠ fromGroupId) →
        (truthy toBlockId = true ∧ toBlockId.getD "" ∈ ord) →
        skippedBlockIds ord bid toGroupId toBlockId fromGroupId
          = (ord.take (ord.findIdx (fun x => x = toBlockId.getD ""))).drop
              (ord.findIdx (fun x => x = bid) + 1))
    ∧ (¬(truthy toGroupId = true ∧ toGroupId.getD "" ≠ fromGroupId) →
        ¬(truthy toBlockId = true ∧ toBlockId.getD "" ∈ ord) →
        skippedBlockIds ord bid toGroupId toBlockId fromGroupId = [])
    ∧ (∀ (edges : List Edge) (vD : List (String × String)) (aB : List (String × Block))
        (bG : List (String × String)) (oL : List (String × List String)) (item : Item)
        (targetEdge : Edge),
        edges.find? (fun e => e.id == item.outgoingEdgeId) = some targetEdge →
        itemSkippedIds bG oL bid targetEdge.toE.groupId targetEdge.toE.blockId = [] →
        processItem edges vD aB bG oL bid item = none) := by
  refine ⟨?_, ?_, ?_, ?_⟩
  · intro h
    unfold skippedBlockIds
    rw [if_pos h, if_pos hbid]
  · intro h1 h2
    unfold skippedBlockIds
    rw [if_neg h1, if_pos h2, if_pos hbid]
  · intro h1 h2
    unfold skippedBlockIds
    rw [if_neg h1, if_neg h2]
  · intro edges vD aB bG oL item targetEdge hfind hempty
    unfold processItem
    cases hcmp : item.comparisons with
    | nil => rfl
    | cons comparison rest =>
      simp only
      split
      · simp only [hfind]
        rw [hempty]
        simp [collectSkippedVars, resolveAffected]
      · rfl

/-- Witness for c1_skip_window: a same-group branch from the first block
to the last skips exactly the blocks strictly between them. -/
theorem c1_skip_window_witness :
    skippedBlockIds ["c", "x", "y", "t"] "c" none (some "t") "g" = ["x", "y"] := by
  have h := (c1_skip_window ["c", "x", "y", "t"] "c" none (some "t") "g" (by decide)).2.1
    (by decide) (by decide)
  rw [h]
  decide

/-- C5: within a computed skip window, exactly the blocks whose type
contains the substring input (case-insensitive) and whose truthy
options.variableId is a key of the variables dict contribute their
resolved names, in window order; and the item emits a Constraint exactly
when that affected-columns list is non-empty. -/
theorem c5_affected_columns (allBlocksL : List (String × Block))
    (variablesD : List (String × String)) :
    (∀ (w : List String),
      resolveAffected variablesD (collectSkippedVars allBlocksL w)
        = w.filterMap (windowContribution allBlocksL variablesD))
    ∧ (∀ (edges : List Edge) (bG : List (String × String)) (oL : List (String × List String))
        (bid : String) (iid oeid : Option String) (comparison : Comparison)
        (rest : List Comparison) (targetEdge : Edge) (condName : String),
        (match comparison.variableId with
         | some cvid => lookupLast variablesD cvid
         | none => none) = some condName →
        condName ≠ "" →
        edges.find? (fun e => e.id == oeid) = some targetEdge →
        ((processItem edges variablesD allBlocksL bG oL bid ⟨iid, comparison :: rest, oeid⟩
            = some ⟨condName,
                condDesc (comparison.comparisonOperator.getD "") (comparison.value.getD ""),
                (itemSkippedIds bG oL bid targetEdge.toE.groupId targetEdge.toE.blockId).filterMap
                  (windowContribution allBlocksL variablesD)⟩
          ↔ (itemSkippedIds bG oL bid targetEdge.toE.groupId
              targetEdge.toE.blockId).filterMap
                (windowContribution allBlocksL variablesD) ≠ [])
        ∧ ((itemSkippedIds bG oL bid targetEdge.toE.groupId targetEdge.toE.blockId).filterMap
              (windowContribution allBlocksL variablesD) = [] →
            processItem edges variablesD allBlocksL bG oL bid
              ⟨iid, comparison :: rest, oeid⟩ = none))) := by
  constructor
  · intro w
    exact resolve_collect_eq allBlocksL variablesD w
  · intro edges bG oL bid iid oeid comparison rest targetEdge condName hname hcn hfind
    have hres := resolve_collect_eq allBlocksL variablesD
      (itemSkippedIds bG oL bid targetEdge.toE.groupId targetEdge.toE.blockId)
    have hbody : processItem edges variablesD allBlocksL bG oL bid ⟨iid, comparison :: rest, oeid⟩
        = (if (itemSkippedIds bG oL bid targetEdge.toE.groupId
              targetEdge.toE.blockId).filterMap (windowContribution allBlocksL variablesD) ≠ []
          then some ⟨condName,
              condDesc (comparison.comparisonOperator.getD "") (comparison.value.getD ""),
              (itemSkippedIds bG oL bid targetEdge.toE.groupId targetEdge.toE.blockId).filterMap
                (windowContribution allBlocksL variablesD)⟩
          else none) := by
      unfold processItem
      simp only [hname]
      have htr : truthy (some condName) = true := by
        simp [truthy, hcn]
      rw [if_pos htr]
      simp only [hfind]
      rw [hres]
      simp only [Option.getD_some]
    constructor
    · constructor
      · intro hsome
        by_contra hempty
        rw [hbody, if_neg (fun hc => hc hempty)] at hsome
        exact Option.noConfusion hsome
      · intro hne
        rw [hbody, if_pos hne]
    · intro hempty
      rw [hbody, if_neg (by simp [hempty])]

/-- Witness for c5_affected_columns: an inter-group branch on a condition
block skips the following input block, yielding its variable name. -/
theorem c5_affected_columns_witness :
    processItem [⟨some "ed1", ⟨none, none, none, none⟩, ⟨some "g2", none⟩⟩]
      [("vA", "A"), ("vB", "B")]
      [("c1", ⟨"c1", some "Condition", ⟨none, none, none⟩, [], ⟨[]⟩⟩),
       ("b2", ⟨"b2", some "text input", ⟨some "vB", none, none⟩, [], ⟨[]⟩⟩)]
      [("c1", "g1"), ("b2", "g1")] [("g1", ["c1", "b2"])] "c1"
      ⟨some "i1", [⟨some "vA", some "Equal to", some "Yes"⟩], some "ed1"⟩
      = some ⟨"A", "Yes", ["B"]⟩ := by
  have h := ((c5_affected_columns
      [("c1", ⟨"c1", some "Condition", ⟨none, none, none⟩, [], ⟨[]⟩⟩),
       ("b2", ⟨"b2", some "text input", ⟨some "vB", none, none⟩, [], ⟨[]⟩⟩)]
      [("vA", "A"), ("vB", "B")]).2
    [⟨some "ed1", ⟨none, none, none, none⟩, ⟨some "g2", none⟩⟩]
    [("c1", "g1"), ("b2", "g1")] [("g1", ["c1", "b2"])] "c1"
    (some "i1") (some "ed1") ⟨some "vA", some "Equal to", some "Yes"⟩ []
    ⟨some "ed1", ⟨none, none, none, none⟩, ⟨some "g2", none⟩⟩ "A"
    (by decide) (by decide) (by decide)).1.mpr (by decide)
  rw [h]
  decide

/-- C7: the extractor reads only the first comparison of an item; an item
with no comparisons, an unresolvable (falsy) condition variable name, or
an unmatched outgoing edge id yields no Constraint; and the whole
extraction is a filterMap over the condition items, so one ignored item
never affects the others and the extractor always returns a list. -/
theorem c7_item_robustness :
    (∀ (edges : List Edge) (vD : List (String × String)) (aB : List (String × Block))
        (bG : List (String × String)) (oL : List (String × List String)) (bid : String)
        (iid oeid : Option String) (c : Comparison) (rest : List Comparison),
      processItem edges vD aB bG oL bid ⟨iid, c :: rest, oeid⟩
        = processItem edges vD aB bG oL bid ⟨iid, [c], oeid⟩)
    ∧ (∀ (edges : List Edge) (vD : List (String × String)) (aB : List (String × Block))
        (bG : List (String × String)) (oL : List (String × List String)) (bid : String)
        (item : Item), item.comparisons = [] →
        processItem edges vD aB bG oL bid item = none)
    ∧ (∀ (edges : List Edge) (vD : List (String × String)) (aB : List (String × Block))
        (bG : List (String × String)) (oL : List (String × List String)) (bid : String)
        (iid oeid : Option String) (c : Comparison) (rest : List Comparison),
        truthy (match c.variableId with
          | some cvid => lookupLast vD cvid
          | none => none) = false →
        processItem edges vD aB bG oL bid ⟨iid, c :: rest, oeid⟩ = none)
    ∧ (∀ (edges : List Edge) (vD : List (String × String)) (aB : List (String × Block))
        (bG : List (String × String)) (oL : List (String × List String)) (bid : String)
        (item : Item),
        edges.find? (fun e => e.id == item.outgoingEdgeId) = none →
        processItem edges vD aB bG oL bid item = none)
    ∧ (∀ (bot : Typebot),
        generate_constraints bot
          = (conditionItems bot).filterMap
              (fun p => processItem bot.edges (varPairsOf bot) (allBlockPairsOf bot)
                (blockGroupPairsOf bot) (orderPairsOf bot) p.1 p.2)) := by
  refine ⟨?_, ?_, ?_, ?_, ?_⟩
  · intro edges vD aB bG oL bid iid oeid c rest
    rfl
  · intro edges vD aB bG oL bid item h
    unfold processItem
    rw [h]
  · intro edges vD aB bG oL bid iid oeid c rest h
    unfold processItem
    simp only [h]
    simp
  · intro edges vD aB bG oL bid item h
    unfold processItem
    cases hcmp : item.comparisons with
    | nil => rfl
    | cons comparison rest =>
      simp only
      split
      · rw [h]
      · rfl
  · exact generate_constraints_eq

/-- Witness for c7_item_robustness: a comparison-free item is ignored,
and an item whose edge id matches nothing is ignored. -/
theorem c7_item_robustness_witness :
    processItem [] [] [] [] [] "b" ⟨none, [], none⟩ = none
    ∧ processItem [⟨some "e9", ⟨none, none, none, none⟩, ⟨none, none⟩⟩]
        [("v", "V")] [] [] [] "b"
        ⟨some "i", [⟨some "v", none, none⟩], some "missing"⟩ = none := by
  constructor
  · exact c7_item_robustness.2.1 [] [] [] [] [] "b" ⟨none, [], none⟩ rfl
  · exact c7_item_robustness.2.2.2.1
      [⟨some "e9", ⟨none, none, none, none⟩, ⟨none, none⟩⟩] [("v", "V")] [] [] [] "b"
      ⟨some "i", [⟨some "v", none, none⟩], some "missing"⟩ (by decide)

/-- C2: the ordered-variable output of get_ordered_variables contains
every distinct variable name of the document's variable map exactly once
(no duplicates), equals the traversal output followed by the first
occurrences of the not-yet-present names in variable-declaration order,
and its length is the number of distinct variable names. -/
theorem c2_ordered_variables_complete (bot : Typebot) :
    (get_ordered_variables1 bot).Nodup
    ∧ (∀ x, x ∈ get_ordered_variables1 bot ↔ x ∈ dictValues (varPairsOf bot))
    ∧ (get_ordered_variables1 bot).length = (dictValues (varPairsOf bot)).toFinset.card
    ∧ get_ordered_variables1 bot
        = (runTrace bot ((groupKeys bot).length + 1) (startTargets1 bot)).ordered
          ++ dedupFirstNotIn (dictValues (varPairsOf bot))
              (runTrace bot ((groupKeys bot).length + 1) (startTargets1 bot)).ordered
    ∧ (∀ x ∈ dedupFirstNotIn (dictValues (varPairsOf bot))
          (runTrace bot ((groupKeys bot).length + 1) (startTargets1 bot)).ordered,
        x ∉ (runTrace bot ((groupKeys bot).length + 1) (startTargets1 bot)).ordered) := by
  have hinv := runTrace_inv bot ((groupKeys bot).length + 1) (startTargets1 bot)
  have hnodup : (get_ordered_variables1 bot).Nodup := by
    unfold get_ordered_variables1 get_ordered_variablesFuel
    exact nodup_appendMissing _ _ hinv.1
  have hmem : ∀ x, x ∈ get_ordered_variables1 bot ↔ x ∈ dictValues (varPairsOf bot) := by
    intro x
    unfold get_ordered_variables1 get_ordered_variablesFuel
    rw [mem_appendMissing]
    constructor
    · rintro (h | h)
      · exact hinv.2 x h
      · exact h
    · intro h
      exact Or.inr h
  refine ⟨hnodup, hmem, ?_, ?_, ?_⟩
  · have hfin : (get_ordered_variables1 bot).toFinset
        = (dictValues (varPairsOf bot)).toFinset := by
      apply Finset.ext
      intro x
      rw [List.mem_toFinset, List.mem_toFinset]
      exact hmem x
    rw [← List.toFinset_card_of_nodup hnodup, hfin]
  · unfold get_ordered_variables1 get_ordered_variablesFuel
    exact appendMissing_eq _ _
  · intro x hx
    exact dedupFirstNotIn_not_mem _ _ x hx

/-- C8: the tracer terminates on every document, cyclic ones included:
a visited group id returns immediately, and any recursion fuel exceeding
the number of distinct group ids computes the same result as the bound
used by get_ordered_variables, so recursion depth is capped by the
distinct-group count. -/
theorem c8_trace_fuel_bound (bot : Typebot) (fuel : Nat)
    (hf : (groupKeys bot).length < fuel) (targets : List EdgeTo) :
    (get_ordered_variablesFuel bot fuel targets
      = get_ordered_variablesFuel bot ((groupKeys bot).length + 1) targets)
    ∧ (∀ (f : Nat) (gid : String) (sb : Option String) (st : TraceState),
        gid ∈ st.visited → traceFlow bot f gid sb st = st) := by
  constructor
  · unfold get_ordered_variablesFuel
    rw [runTrace_fuel_eq bot fuel ((groupKeys bot).length + 1) hf (by omega) targets]
  · intro f gid sb st h
    cases f with
    | zero => rfl
    | succ f =>
      rw [traceFlow]
      rw [if_pos h]

/-- Witness for c8_trace_fuel_bound: on the document with a
self-referencing Jump cycle, fuel 5 and the bound fuel agree. -/
theorem c8_trace_fuel_bound_witness :
    get_ordered_variablesFuel exCyclicBot 5 (startTargets1 exCyclicBot)
      = get_ordered_variablesFuel exCyclicBot ((groupKeys exCyclicBot).length + 1)
          (startTargets1 exCyclicBot) :=
  (c8_trace_fuel_bound exCyclicBot 5 (by decide) (startTargets1 exCyclicBot)).1

/-- C3 counterexample: a document with no start event, no startGroupId
and a non-empty group list, on which the tracer of 2-ExtractBotData.py
computes no entry point at all, while the claimed first-group fallback
(present only in 1-BotLogicExtractor.py) would select group g1. -/
theorem c3_entry_counterexample :
    startTargets2 exDivergenceBot = []
    ∧ exDivergenceBot.groups ≠ []
    ∧ startTargets1 exDivergenceBot = [⟨some "g1", none⟩] := by
  decide

/-- C3 (amended): both tracers prefer start-event edge targets, then a
truthy startGroupId; the first-group fallback exists only in the tracer
of 1-BotLogicExtractor.py, and the tracer of 2-ExtractBotData.py yields
no entry point when the first two options are empty. -/
theorem c3_entry_chain (bot : Typebot) :
    (startEventTargets bot ≠ [] →
      startTargets1 bot = startEventTargets bot
      ∧ startTargets2 bot = startEventTargets bot)
    ∧ (startEventTargets bot = [] → truthy bot.startGroupId = true →
      startTargets1 bot = [⟨bot.startGroupId, none⟩]
      ∧ startTargets2 bot = [⟨bot.startGroupId, none⟩])
    ∧ (startEventTargets bot = [] → truthy bot.startGroupId = false →
        startTargets2 bot = []
        ∧ (∀ k ks, firstKeys (bot.groups.map BotGroup.id) = k :: ks →
            startTargets1 bot = [⟨some k, none⟩])
        ∧ (firstKeys (bot.groups.map BotGroup.id) = [] → startTargets1 bot = [])) := by
  refine ⟨?_, ?_, ?_⟩
  · intro h
    unfold startTargets1 startTargets2
    rw [if_neg h, if_neg h]
    exact ⟨rfl, rfl⟩
  · intro hs ht
    unfold startTargets1 startTargets2
    rw [if_pos hs, if_pos hs, if_pos ht, if_pos ht]
    exact ⟨rfl, rfl⟩
  · intro hs ht
    have htn : ¬(truthy bot.startGroupId = true) := by simp [ht]
    refine ⟨?_, ?_, ?_⟩
    · unfold startTargets2
      rw [if_pos hs, if_neg htn]
    · intro k ks hk
      unfold startTargets1
      rw [if_pos hs, if_neg htn, hk]
    · intro hk
      unfold startTargets1
      rw [if_pos hs, if_neg htn, hk]

/-- Witness for c3_entry_chain: a document whose startGroupId is g1 and
has no start events enters at g1 under both tracers. -/
theorem c3_entry_chain_witness :
    startTargets1 exStartBot = [⟨some "g1", none⟩]
    ∧ startTargets2 exStartBot = [⟨some "g1", none⟩] := by
  have h := (c3_entry_chain exStartBot).2.1 (by decide) (by decide)
  exact h

/-- C10 counterexample: on a document with neither start events nor a
startGroupId, the two copies of get_ordered_variables differ: the
1-BotLogicExtractor.py copy traces from the first group (traversal order
B, A) while the 2-ExtractBotData.py copy traces nothing and falls back to
declaration order (A, B). -/
theorem c10_tracers_differ_counterexample :
    get_ordered_variables1 exDivergenceBot ≠ get_ordered_variables2 exDivergenceBot
    ∧ get_ordered_variables1 exDivergenceBot = ["B", "A"]
    ∧ get_ordered_variables2 exDivergenceBot = ["A", "B"] := by
  decide

/-- C10 (amended): the two copies of get_ordered_variables agree on every
document that has a start-event edge target or a truthy startGroupId;
they can differ only through the first-group fallback that exists solely
in 1-BotLogicExtractor.py. -/
theorem c10_tracers_agree (bot : Typebot)
    (h : startEventTargets bot ≠ [] ∨ truthy bot.startGroupId = true) :
    get_ordered_variables1 bot = get_ordered_variables2 bot := by
  unfold get_ordered_variables1 get_ordered_variables2
  have he : startTargets1 bot = startTargets2 bot := by
    unfold startTargets1 startTargets2
    rcases h with h | h
    · rw [if_neg h, if_neg h]
    · by_cases hs : startEventTargets bot = []
      · rw [if_pos hs, if_pos hs, if_pos h, if_pos h]
      · rw [if_neg hs, if_neg hs]
  rw [he]

/-- Witness for c10_tracers_agree: with a startGroupId present the two
copies produce identical output. -/
theorem c10_tracers_agree_witness :
    get_ordered_variables1 exStartBot = get_ordered_variables2 exStartBot :=
  c10_tracers_agree exStartBot (Or.inr (by decide))

/-- C4: in the per-group scan, an input-type block whose truthy
variableId resolves to a truthy variable name receives an entry mapping
that name to the pending text exactly when the pending-text slot is
non-empty, and recording clears the slot; consequently, of two
consecutive such input blocks only the first receives an entry. -/
theorem c4_question_recording (variablesD : List (String × String)) :
    (∀ (q : List (String × String)) (pending : String) (block : Block)
        (t vid name : String),
      block.type = some t → t ∈ inputTypes →
      block.options.variableId = some vid → vid ≠ "" →
      lookupLast variablesD vid = some name → name ≠ "" →
      extractQuestionsBlock variablesD (q, pending) block
        = if pending ≠ "" then (q ++ [(name, pending)], "") else (q, pending))
    ∧ (∀ (q : List (String × String)) (pending : String) (b₁ b₂ : Block)
        (t₁ t₂ v₁ v₂ n₁ n₂ : String),
        b₁.type = some t₁ → t₁ ∈ inputTypes →
        b₁.options.variableId = some v₁ → v₁ ≠ "" →
        lookupLast variablesD v₁ = some n₁ → n₁ ≠ "" →
        b₂.type = some t₂ → t₂ ∈ inputTypes →
        b₂.options.variableId = some v₂ → v₂ ≠ "" →
        lookupLast variablesD v₂ = some n₂ → n₂ ≠ "" →
        pending ≠ "" →
        [b₁, b₂].foldl (extractQuestionsBlock variablesD) (q, pending)
          = (q ++ [(n₁, pending)], "")) := by
  have main : ∀ (q : List (String × String)) (pending : String) (block : Block)
      (t vid name : String),
      block.type = some t → t ∈ inputTypes →
      block.options.variableId = some vid → vid ≠ "" →
      lookupLast variablesD vid = some name → name ≠ "" →
      extractQuestionsBlock variablesD (q, pending) block
        = if pending ≠ "" then (q ++ [(name, pending)], "") else (q, pending) := by
    intro q pending block t vid name htype hin hvid hvne hname hnne
    have htext : t ≠ "text" := by
      intro h
      subst h
      revert hin
      decide
    have hbt : ¬(((some t : Option String) == some "text") = true) := by
      simp [htext]
    have hit : decide (t ∈ inputTypes) = true := by
      simp [hin]
    unfold extractQuestionsBlock
    simp only [htype, hvid, hname]
    rw [if_neg hbt, if_pos hit, if_pos hvne, if_pos hnne]
  constructor
  · exact main
  · intro q pending b₁ b₂ t₁ t₂ v₁ v₂ n₁ n₂ h1 h2 h3 h4 h5 h6 h7 h8 h9 h10 h11 h12 hp
    simp only [List.foldl_cons, List.foldl_nil]
    rw [main q pending b₁ t₁ v₁ n₁ h1 h2 h3 h4 h5 h6, if_pos hp]
    rw [main (q ++ [(n₁, pending)]) "" b₂ t₂ v₂ n₂ h7 h8 h9 h10 h11 h12]
    simp

/-- Witness for c4_question_recording: a pending question is recorded for
the first input block and the second consecutive input block gets none. -/
theorem c4_question_recording_witness :
    [exInputBlock, exInputBlock2].foldl (extractQuestionsBlock exVarPairs)
      ([], "What is your name?")
      = ([("Name", "What is your name?")], "") := by
  have h := (c4_question_recording exVarPairs).2 [] "What is your name?"
    exInputBlock exInputBlock2 "text input" "text input" "vN" "vM" "Name" "Mail"
    rfl (by decide) rfl (by decide) (by decide) (by decide)
    rfl (by decide) rfl (by decide) (by decide) (by decide) (by decide)
  rw [h]
  decide

/-- C9 counterexample: a text block whose only line is whitespace
contributes no non-empty fragment, and the scan keeps the previous
pending text Hello instead of overwriting the slot with the empty join,
contradicting the claimed unconditional overwrite. -/
theorem c9_text_overwrite_counterexample :
    extractQuestionsBlock exVarPairs ([], "Hello") exWhitespaceTextBlock = ([], "Hello")
    ∧ textLines exWhitespaceTextBlock = []
    ∧ pyJoin "\n" (textLines exWhitespaceTextBlock) = ""
    ∧ ("Hello" : String) ≠ "" := by
  decide

/-- C9 (amended): a plain-text block sets the pending-text slot to the
newline-joined non-empty stripped fragments when there is at least one
such fragment, and leaves the slot unchanged when there is none. -/
theorem c9_text_overwrite (variablesD : List (String × String))
    (q : List (String × String)) (pending : String) (block : Block)
    (htype : block.type = some "text") :
    extractQuestionsBlock variablesD (q, pending) block
      = (q, if textLines block ≠ [] then pyJoin "\n" (textLines block) else pending) := by
  unfold extractQuestionsBlock
  rw [htype]
  rw [if_pos (beq_self_eq_true (some "text"))]
  by_cases hl : textLines block ≠ []
  · rw [if_pos hl, if_pos hl]
  · rw [if_neg hl, if_neg hl]

/-- Witness for c9_text_overwrite: a text block reading Hello overwrites
the pending slot. -/
theorem c9_text_overwrite_witness :
    extractQuestionsBlock exVarPairs ([], "old") exHelloTextBlock = ([], "Hello") := by
  have h := c9_text_overwrite exVarPairs [] "old" exHelloTextBlock rfl
  rw [h]
  decide

/-- C6 counterexample: an edge whose from endpoint carries eventId,
itemId, blockId and groupId at once is still returned by an item query
and by a group query, so the claimed exclusive eventId-first priority
does not govern the tracer's single-key queries. -/
theorem c6_edge_query_counterexample :
    get_targets [exPriorityEdge] none none (some "I") none = [⟨some "T", none⟩]
    ∧ get_targets [exPriorityEdge] none (some "G") none none = [⟨some "T", none⟩]
    ∧ exPriorityEdge.fromE.eventId = some "E"
    ∧ exPriorityEdge.fromE.blockId = some "B" := by
  decide

/-- Deciding propositional equality agrees with boolean equality on
optional strings. -/
theorem decide_eq_beq_opt (a b : Option String) : decide (a = b) = (a == b) := by
  cases h : a == b
  · have hne : a ≠ b := by
      intro he
      subst he
      rw [beq_self_eq_true] at h
      exact Bool.noConfusion h
    simp [hne]
  · have he : a = b := beq_iff_eq.mp h
    simp [he]

/-- C6 (amended): each single-key query of get_targets matches only on
its own from field: event, item and group queries return every edge whose
from names the queried id regardless of other fields, and the only
enforced priority is itemId over blockId: a block query returns exactly
the edges whose from names that blockId and carries no truthy itemId. -/
theorem c6_edge_query_semantics (edges : List Edge) :
    (∀ E, E ≠ "" → get_targets edges none none none (some E)
        = (edges.filter (fun e => e.fromE.eventId == some E)).map Edge.toE)
    ∧ (∀ I, I ≠ "" → get_targets edges none none (some I) none
        = (edges.filter (fun e => e.fromE.itemId == some I)).map Edge.toE)
    ∧ (∀ B, B ≠ "" → get_targets edges (some B) none none none
        = (edges.filter
            (fun e => e.fromE.blockId == some B && !truthy e.fromE.itemId)).map Edge.toE)
    ∧ (∀ G, G ≠ "" → get_targets edges none (some G) none none
        = (edges.filter (fun e => e.fromE.groupId == some G)).map Edge.toE) := by
  refine ⟨?_, ?_, ?_, ?_⟩
  · intro E hE
    rw [get_targets_eq_filter]
    congr 1
    apply List.filter_congr
    intro e _
    simp [edgeMatch, truthy, hE, decide_eq_beq_opt]
  · intro I hI
    rw [get_targets_eq_filter]
    congr 1
    apply List.filter_congr
    intro e _
    simp [edgeMatch, truthy, hI, decide_eq_beq_opt]
  · intro B hB
    rw [get_targets_eq_filter]
    congr 1
    apply List.filter_congr
    intro e _
    simp [edgeMatch, truthy, hB, decide_eq_beq_opt]
  · intro G hG
    rw [get_targets_eq_filter]
    congr 1
    apply List.filter_congr
    intro e _
    simp [edgeMatch, truthy, hG, decide_eq_beq_opt]

/-- Witness for c6_edge_query_semantics: the block query on the
all-fields edge returns nothing (its from carries an itemId), while the
event query returns its target. -/
theorem c6_edge_query_semantics_witness :
    get_targets [exPriorityEdge] (some "B") none none none = []
    ∧ get_targets [exPriorityEdge] none none none (some "E") = [⟨some "T", none⟩] := by
  constructor
  · have h := (c6_edge_query_semantics [exPriorityEdge]).2.2.1 "B" (by decide)
    rw [h]
    decide
  · have h := (c6_edge_query_semantics [exPriorityEdge]).1 "E" (by decide)
    rw [h]
    decide
